import Mathlib

/-
Verification of the audio-processing core of the Lofi-Converter repository
(src/music.py) against its natural-language specification.

The embedding models a decoded clip as a list of 16-bit integer samples plus a
frame rate (one channel; pydub's `AudioSegment`).  The pydub / audioop
primitives the source calls (gain in decibels, overlay, silence, slicing,
low-pass filter, normalize) are third-party library code, not part of this
repository; they are modelled here from their documented semantics, with exact
rational arithmetic standing in for the library's floating point:

  * `audioop.mul` / `apply_gain`: every sample is multiplied by the linear
    factor `10 ^ (db / 20)` and the result is floored and saturated to the
    16-bit range (CPython's `fbound` floors, then clips).
  * `audioop.add` / `overlay`: samplewise saturating addition; the result of
    `base.overlay(other, position=0)` always has the length of `base`.
  * `AudioSegment.silent(duration)`: `duration` milliseconds of zero samples;
    pydub's `+` syncs both operands to the higher frame rate, which for the
    WAV inputs this pipeline processes is the clip's own rate, so silence is
    modelled directly at the clip's frame rate.
  * `low_pass_filter`: pydub's one-pole RC filter with
    `alpha = dt / (RC + dt)`, `RC = 1 / (2 pi cutoff)`; `pi` is approximated
    by the rational `355/113` (no claim observes the filtered values).
  * `normalize`: scales so the peak reaches the format's maximum amplitude
    (pydub's 0.1 dB headroom, an irrational factor, is dropped; no claim
    observes the exact normalized values, only their bounds).

File handles (`AudioSegment.from_wav`, `export`) are fallible library
calls and appear as parameters of type `Except`; the file system is a total
map from paths to byte contents.
-/

namespace Lofi

/-- Smallest representable sample of the 16-bit PCM format handled by
`audioop` (sample width 2). -/
def sampleMin : ℤ := -32768

/-- Largest representable sample of the 16-bit PCM format handled by
`audioop` (sample width 2). -/
def sampleMax : ℤ := 32767

/-- Saturation of an integer sample to the representable 16-bit range, as
performed by CPython's `audioop` after every arithmetic operation. -/
def clampSample (x : ℤ) : ℤ :=
  if x < sampleMin then sampleMin else if sampleMax < x then sampleMax else x

/-- An in-memory decoded audio clip: pydub's `AudioSegment`, modelled as one
channel of 16-bit samples together with a frame rate in Hz. -/
structure AudioSegment where
  samples : List ℤ
  frameRate : ℕ

/-- pydub's `db_to_float`: a change of `db` decibels corresponds to the linear
amplitude factor `10 ^ (db / 20)`.  That value is rational exactly when `db`
is a multiple of 20 — which covers every tap attenuation `20 × (i+1)` dB of
the reverb loop and the `±40` dB endpoint of the gain stage; for other values
the factor is irrational and is represented by a fixed rational approximation
of `10 ^ (1/20)` (no claim observes sample values produced at such gains). -/
def dbFactor (db : ℤ) : ℚ :=
  if (20 : ℤ) ∣ db then (10 : ℚ) ^ (db / 20)
  else (1122018454 / 1000000000 : ℚ) ^ db

/-- pydub gain application (`seg + db`, `seg - db`, `apply_gain`): every
sample is scaled by `dbFactor db`, floored, and saturated (`audioop.mul`). -/
def applyGainDb (db : ℤ) (a : AudioSegment) : AudioSegment :=
  ⟨a.samples.map (fun s => clampSample ⌊(s : ℚ) * dbFactor db⌋), a.frameRate⟩

/-- Samplewise saturating addition (`audioop.add`); the result keeps the
length of the first list, extra samples of the second are dropped. -/
def zipAdd : List ℤ → List ℤ → List ℤ
  | [], _ => []
  | xs, [] => xs
  | x :: xs, y :: ys => clampSample (x + y) :: zipAdd xs ys

/-- `base.overlay(over, position=0)`: samplewise saturating mix; the result
always has the length (and frame rate) of `base` — overlay never extends. -/
def overlay (base over : AudioSegment) : AudioSegment :=
  ⟨zipAdd base.samples over.samples, base.frameRate⟩

/-- `len(seg)` in pydub: the duration of the clip in milliseconds. -/
def lenMs (a : AudioSegment) : ℕ := a.samples.length * 1000 / a.frameRate

/-- `seg[:ms]`: the first `ms` milliseconds of a clip. -/
def takeMs (a : AudioSegment) (ms : ℕ) : AudioSegment :=
  ⟨a.samples.take (ms * a.frameRate / 1000), a.frameRate⟩

/-- `AudioSegment.silent(duration=ms)` synced (by pydub's `+`) to the frame
rate `fr` of the clip it is prepended to. -/
def silentMs (ms : ℚ) (fr : ℕ) : AudioSegment :=
  ⟨List.replicate (⌊ms * fr / 1000⌋).toNat 0, fr⟩

/-- pydub concatenation `x + y` of two clips at the same frame rate. -/
def appendSeg (x y : AudioSegment) : AudioSegment :=
  ⟨x.samples ++ y.samples, x.frameRate⟩

/-- The six-field parameter record of `slowedreverb` (src/music.py line 36). -/
structure EffectParams where
  room_size : ℚ
  damping : ℚ
  wet_level : ℚ
  dry_level : ℚ
  delay : ℚ
  slow_factor : ℚ

/-- Modelled from the spec: pydub's `set_frame_rate` resamples through
`audioop.ratecv` (library code outside this repository); it is modelled as a
duration-preserving zero-order-hold resampler.  No claim depends on the
resampled sample values, only on the identity case `slow_factor = 0` in which
this function is never reached. -/
def setFrameRate (target : ℕ) (a : AudioSegment) : AudioSegment :=
  if a.frameRate = target then a
  else
    ⟨(List.range (a.samples.length * target / a.frameRate)).map
        (fun i => a.samples.getD (i * a.frameRate / target) 0), target⟩

/-- The time-stretch stage, src/music.py lines 56-65: when `slow_factor > 0`
the raw samples are relabelled with the reduced frame rate
`int(frame_rate * (1 - slow_factor))` and then converted back to the original
rate; otherwise the clip passes through unchanged. -/
def timeStretch (slow_factor : ℚ) (a : AudioSegment) : AudioSegment :=
  if slow_factor > 0 then
    let newRate := (⌊(a.frameRate : ℚ) * (1 - slow_factor)⌋).toNat
    setFrameRate a.frameRate { a with frameRate := newRate }
  else a

/-- The tap signal of src/music.py line 79:
`AudioSegment.silent(duration=delay * (i+1)) + reverb - (20 * (i + 1))` —
`delay × (i+1)` ms of silence prepended to the clip `reverb`, the whole
prepended signal attenuated by `20 × (i+1)` dB. -/
def tapDelayed (delay : ℚ) (i : ℕ) (reverb : AudioSegment) : AudioSegment :=
  applyGainDb (-(20 * ((i : ℤ) + 1)))
    (appendSeg (silentMs (delay * ((i : ℚ) + 1)) reverb.frameRate) reverb)

/-- One iteration of the reverb loop, src/music.py lines 73-85: the tap is
built from the clip `reverb` and overlaid onto the accumulated clip `audio`
(truncated to `audio`'s length when longer), but only when
`decay = room_size * (1 - damping) ^ (i+1)` strictly exceeds `0.01`. -/
def tapStep (p : EffectParams) (reverb : AudioSegment) (i : ℕ)
    (audio : AudioSegment) : AudioSegment :=
  let decay := p.room_size * (1 - p.damping) ^ (i + 1)
  if decay > 1/100 then
    let delayed := tapDelayed p.delay i reverb
    if lenMs delayed > lenMs audio then overlay audio (takeMs delayed (lenMs audio))
    else overlay audio delayed
  else audio

/-- The delay/reverb stage, src/music.py lines 67-85: when `wet_level > 0`
and `delay > 0`, the variable `reverb` captures the clip once before the loop
(line 70, `reverb = audio`) and each of the three taps is built from it, the
overlay accumulating in `audio`; otherwise the clip passes through. -/
def reverbStage (p : EffectParams) (audio : AudioSegment) : AudioSegment :=
  if p.wet_level > 0 ∧ p.delay > 0 then
    let reverb := audio
    List.foldl (fun acc i => tapStep p reverb i acc) audio [0, 1, 2]
  else audio

/-- The integer `int(20 * np.log10 (max dry (1/100)))` of src/music.py line
89, computed exactly: for `x = max dry (1/100) ∈ [1/100, 1]` (every value the
guarded call can produce, since the stage runs only for `dry < 1`) the
truncation toward zero of the nonpositive real `20 log10 x` equals minus the
largest `k ≤ 40` with `10 ^ k * x ^ 20 ≤ 1`. -/
def gainChangeInt (dry : ℚ) : ℤ :=
  -((Nat.findGreatest (fun k => (10 : ℚ) ^ k * (max dry (1/100)) ^ 20 ≤ 1) 40 : ℕ) : ℤ)

/-- The gain-staging step, src/music.py lines 88-89:
`audio - int(20 * np.log10(max(dry_level, 0.01)))` when `dry_level < 1.0`.
pydub's `seg - g` is `apply_gain(-g)`, so the decibel change actually applied
is `-(gainChangeInt dry_level)`. -/
def gainStage (dry_level : ℚ) (a : AudioSegment) : AudioSegment :=
  if dry_level < 1 then applyGainDb (-(gainChangeInt dry_level)) a else a

/-- Rational approximation of pi used by the low-pass filter model. -/
def piApprox : ℚ := 355/113

/-- pydub's RC low-pass coefficient `alpha = dt / (RC + dt)` with
`RC = 1 / (2 pi cutoff)` and `dt = 1 / frame_rate`. -/
def lpAlpha (fr : ℕ) (cutoff : ℕ) : ℚ :=
  let rc := 1 / (2 * piApprox * (cutoff : ℚ))
  let dt := 1 / (fr : ℚ)
  dt / (rc + dt)

/-- Truncation toward zero, Python's `int()` on a real value. -/
def ratTrunc (q : ℚ) : ℤ := if 0 ≤ q then ⌊q⌋ else ⌈q⌉

/-- The recursion of pydub's `low_pass_filter`: the filter state is the real
value `last`, updated to `last + alpha * (x - last)`, and each emitted sample
is `int(last)`. -/
def lowPassGo (alpha : ℚ) : ℚ → List ℤ → List ℤ
  | _, [] => []
  | last, x :: rest =>
    let nv := last + alpha * ((x : ℚ) - last)
    ratTrunc nv :: lowPassGo alpha nv rest

/-- pydub `low_pass_filter(seg, cutoff)`: the first sample passes through and
seeds the filter state. -/
def lowPassFilter (cutoff : ℕ) (a : AudioSegment) : AudioSegment :=
  match a.samples with
  | [] => a
  | x :: rest => ⟨x :: lowPassGo (lpAlpha a.frameRate cutoff) (x : ℚ) rest, a.frameRate⟩

/-- `seg.max` in pydub (`audioop.max`): the largest absolute sample value. -/
def maxAbsSample (l : List ℤ) : ℕ := l.foldl (fun m s => max m s.natAbs) 0

/-- `seg.max_possible_amplitude` for 16-bit samples. -/
def maxPossibleAmplitude : ℚ := 32768

/-- pydub `normalize(seg)`: a clip with zero peak passes through; otherwise
every sample is scaled so the peak reaches the maximum amplitude, floored and
saturated by `audioop.mul`. -/
def normalize (a : AudioSegment) : AudioSegment :=
  let peak := maxAbsSample a.samples
  if peak = 0 then a
  else ⟨a.samples.map
      (fun s => clampSample ⌊(s : ℚ) * (maxPossibleAmplitude / (peak : ℚ))⌋), a.frameRate⟩

/-- The effect chain of `slowedreverb`'s try-block, src/music.py lines 56-96,
in source order: time-stretch, delay/reverb, gain staging, low-pass at the
fixed 8000 Hz cutoff, normalization. -/
def applyEffects (p : EffectParams) (audio0 : AudioSegment) : AudioSegment :=
  let audio1 := timeStretch p.slow_factor audio0
  let audio2 := reverbStage p audio1
  let audio3 := gainStage p.dry_level audio2
  let audio4 := lowPassFilter 8000 audio3
  normalize audio4

/-- File contents, as raw bytes. -/
abbrev Bytes := List ℕ

/-- The fallible external audio library calls the source makes:
`AudioSegment.from_wav`, `export(format='wav')` and
`export(format='mp3', bitrate=...)`; any of them may raise. -/
structure AudioCodec where
  fromWav : Bytes → Except String AudioSegment
  exportWav : AudioSegment → Except String Bytes
  exportMp3 : AudioSegment → String → Except String Bytes

/-- The body of `slowedreverb`'s try-block, src/music.py lines 51-101:
decode, run the effect chain, encode.  The pure stages of the embedding
cannot raise; a failure of the block is a decode or encode failure. -/
def slowedreverbTry (c : AudioCodec) (p : EffectParams) (input : Bytes) :
    Except String Bytes :=
  match c.fromWav input with
  | .error e => .error e
  | .ok audio => c.exportWav (applyEffects p audio)

/-- `slowedreverb`, src/music.py lines 36-108, over a file system modelled as
a total map from paths to contents: on success the processed bytes are
written to `output_file`; on any failure of the try-block the original input
bytes are copied to `output_file` (`shutil.copy2`); either way the function
returns `output_file`. -/
def slowedreverb (c : AudioCodec) (fs : String → Bytes)
    (input_file output_file : String) (p : EffectParams) :
    String × (String → Bytes) :=
  match slowedreverbTry c p (fs input_file) with
  | .ok outBytes => (output_file, fun q => if q = output_file then outBytes else fs q)
  | .error _ => (output_file, fun q => if q = output_file then fs input_file else fs q)

/-- The fixed MP3 bitrate of src/music.py line 28. -/
def mp3Bitrate : String := "192k"

/-- Python's `str.replace(pat, rep)` on character lists: every non-overlapping
occurrence of `pat` is replaced, scanning left to right.  (For the empty
pattern Python interleaves `rep` everywhere; this model returns the string
unchanged — the only pattern used is `".wav"`.) -/
def replaceAll (pat rep : List Char) : List Char → List Char
  | [] => []
  | c :: rest =>
    if pat ≠ [] ∧ pat.isPrefixOf (c :: rest) then
      rep ++ replaceAll pat rep (rest.drop (pat.length - 1))
    else
      c :: replaceAll pat rep rest
termination_by s => s.length
decreasing_by
  all_goals simp [List.length_drop]
  all_goals omega

/-- `s.replace(pat, rep)` on strings. -/
def pyReplace (s pat rep : String) : String :=
  ⟨replaceAll pat.data rep.data s.data⟩

/-- `msc_to_mp3_inf`, src/music.py lines 10-34: load the WAV, derive the MP3
path by `wav_file.replace('.wav', '.mp3')`, export at the fixed bitrate
`"192k"`; on any failure return the original path with the file system
untouched. -/
def msc_to_mp3_inf (c : AudioCodec) (fs : String → Bytes) (wav_file : String) :
    String × (String → Bytes) :=
  match c.fromWav (fs wav_file) with
  | .error _ => (wav_file, fs)
  | .ok audio =>
    let mp3_file := pyReplace wav_file ".wav" ".mp3"
    match c.exportMp3 audio mp3Bitrate with
    | .error _ => (wav_file, fs)
    | .ok bytes => (mp3_file, fun q => if q = mp3_file then bytes else fs q)

theorem zipAdd_length (xs ys : List ℤ) : (zipAdd xs ys).length = xs.length := by
  induction xs generalizing ys with
  | nil => cases ys <;> rfl
  | cons x xs ih =>
    cases ys with
    | nil => rfl
    | cons y ys => simp [zipAdd, ih]

theorem overlay_samples_length (b o : AudioSegment) :
    (overlay b o).samples.length = b.samples.length := zipAdd_length _ _

theorem tapStep_frameRate (p : EffectParams) (r : AudioSegment) (i : ℕ)
    (a : AudioSegment) : (tapStep p r i a).frameRate = a.frameRate := by
  simp only [tapStep]
  split
  · split <;> rfl
  · rfl

theorem tapStep_samples_length (p : EffectParams) (r : AudioSegment) (i : ℕ)
    (a : AudioSegment) : (tapStep p r i a).samples.length = a.samples.length := by
  simp only [tapStep]
  split
  · split <;> simp [overlay, zipAdd_length]
  · rfl

theorem tapStep_lenMs (p : EffectParams) (r : AudioSegment) (i : ℕ)
    (a : AudioSegment) : lenMs (tapStep p r i a) = lenMs a := by
  unfold lenMs
  rw [tapStep_samples_length, tapStep_frameRate]

theorem reverbStage_samples_length (p : EffectParams) (a : AudioSegment) :
    (reverbStage p a).samples.length = a.samples.length := by
  unfold reverbStage
  split
  · simp only [List.foldl_cons, List.foldl_nil]
    rw [tapStep_samples_length, tapStep_samples_length, tapStep_samples_length]
  · rfl

theorem reverbStage_noop_aux (p : EffectParams) (a : AudioSegment)
    (h : p.wet_level ≤ 0 ∨ p.delay ≤ 0) : reverbStage p a = a := by
  have hg : ¬ (p.wet_level > 0 ∧ p.delay > 0) := by
    rintro ⟨h1, h2⟩
    cases h with
    | inl hw => exact absurd h1 (not_lt.mpr hw)
    | inr hd => exact absurd h2 (not_lt.mpr hd)
  unfold reverbStage
  rw [if_neg hg]

/-- C6: for every input clip, when `slow_factor = 0` the time-stretch stage
returns the clip exactly unchanged (identity law). -/
theorem claim_C6_timeStretch_identity (a : AudioSegment) : timeStretch 0 a = a := by
  unfold timeStretch
  rw [if_neg (lt_irrefl 0)]

/-- C7: for every input clip, when `wet_level ≤ 0` or `delay ≤ 0` the
delay/reverb stage returns the clip exactly unchanged (no tap is constructed
or overlaid). -/
theorem claim_C7_reverb_noop (p : EffectParams) (a : AudioSegment)
    (h : p.wet_level ≤ 0 ∨ p.delay ≤ 0) : reverbStage p a = a :=
  reverbStage_noop_aux p a h

theorem claim_C7_reverb_noop_witness :
    reverbStage ⟨1, 0, 0, 1, 5, 0⟩ ⟨[5, 7], 1000⟩ = ⟨[5, 7], 1000⟩ :=
  claim_C7_reverb_noop ⟨1, 0, 0, 1, 5, 0⟩ ⟨[5, 7], 1000⟩ (Or.inl (le_refl 0))

/-- C5: for every input clip and every parameter setting, the sample count of
the reverb stage's output equals the sample count of its input: taps longer
than the accumulated signal are truncated before overlay, and overlaying
never extends the clip. -/
theorem claim_C5_reverb_length (p : EffectParams) (a : AudioSegment) :
    (reverbStage p a).samples.length = a.samples.length :=
  reverbStage_samples_length p a

/-- C4: reverb tap `i` is included iff
`room_size * (1 - damping) ^ (i+1) > 0.01` with strict inequality: below or
at the threshold the loop iteration leaves the accumulated clip untouched,
above it the tap is overlaid; at the boundary `room_size = 1/50`,
`damping = 1/2` (decay exactly `0.01` for `i = 0`) the tap is excluded. -/
theorem claim_C4_tap_threshold (p : EffectParams) (r a : AudioSegment) (i : ℕ) :
    (p.room_size * (1 - p.damping) ^ (i + 1) ≤ 1/100 → tapStep p r i a = a) ∧
    (1/100 < p.room_size * (1 - p.damping) ^ (i + 1) →
      tapStep p r i a =
        (if lenMs (tapDelayed p.delay i r) > lenMs a then
          overlay a (takeMs (tapDelayed p.delay i r) (lenMs a))
        else overlay a (tapDelayed p.delay i r))) ∧
    (p.room_size = 1/50 → p.damping = 1/2 → tapStep p r 0 a = a) := by
  refine ⟨fun h => ?_, fun h => ?_, fun h1 h2 => ?_⟩
  · simp only [tapStep]
    rw [if_neg (not_lt.mpr h)]
  · simp only [tapStep]
    rw [if_pos h]
  · simp only [tapStep]
    rw [h1, h2, if_neg (by norm_num)]

theorem claim_C4_tap_threshold_witness :
    tapStep ⟨1/50, 1/2, 1, 1, 5, 0⟩ ⟨[9], 1000⟩ 0 ⟨[9], 1000⟩ = ⟨[9], 1000⟩ :=
  (claim_C4_tap_threshold ⟨1/50, 1/2, 1, 1, 5, 0⟩ ⟨[9], 1000⟩ ⟨[9], 1000⟩ 0).2.2 rfl rfl

/-- C1: for every input path, output path and parameter record,
`slowedreverb` always returns the output path (it is a total function, so no
processing error reaches the caller), and whenever the try-block
(decode, stages, encode) fails, the bytes at the output path are exactly the
bytes of the original input file. -/
theorem claim_C1_fallback (c : AudioCodec) (fs : String → Bytes)
    (input_file output_file : String) (p : EffectParams) :
    (slowedreverb c fs input_file output_file p).1 = output_file ∧
    (∀ e, slowedreverbTry c p (fs input_file) = .error e →
      (slowedreverb c fs input_file output_file p).2 output_file = fs input_file) := by
  constructor
  · unfold slowedreverb
    cases slowedreverbTry c p (fs input_file) <;> rfl
  · intro e he
    unfold slowedreverb
    rw [he]
    simp

/-- A codec whose WAV decoder always fails. -/
def failCodec : AudioCodec :=
  ⟨fun _ => .error "decode failure", fun _ => .ok [], fun _ _ => .ok []⟩

/-- A file system holding the bytes `[1, 2, 3]` at every path. -/
def fsExample : String → Bytes := fun _ => [1, 2, 3]

/-- The application's default parameter bundle (src/main.py lines 19-26). -/
def defaultParams : EffectParams := ⟨3/4, 1/2, 2/25, 1/5, 2, 2/25⟩

theorem claim_C1_fallback_witness :
    (slowedreverb failCodec fsExample "in.wav" "out.wav" defaultParams).2 "out.wav" =
      fsExample "in.wav" :=
  (claim_C1_fallback failCodec fsExample "in.wav" "out.wav" defaultParams).2
    "decode failure" rfl

theorem isPrefixOf_imp {l₁ l₂ : List Char} (h : l₁.isPrefixOf l₂) : l₁ <+: l₂ := by
  exact List.isPrefixOf_iff_prefix.mp h

theorem replaceAll_no_occurrence (pat rep : List Char) :
    ∀ s : List Char, ¬ (pat <:+: s) → replaceAll pat rep s = s := by
  intro s
  induction s with
  | nil => intro _; simp [replaceAll]
  | cons c rest ih =>
    intro hno
    rw [replaceAll]
    rw [if_neg ?hc]
    case hc =>
      rintro ⟨hne, hpre⟩
      exact hno (List.IsPrefix.isInfix (isPrefixOf_imp hpre))
    rw [ih (fun hinf => hno (List.infix_cons hinf))]

theorem msc_ok_eq (c : AudioCodec) (fs : String → Bytes) (f : String)
    (a : AudioSegment) (bytes : Bytes)
    (ha : c.fromWav (fs f) = .ok a) (hb : c.exportMp3 a mp3Bitrate = .ok bytes) :
    msc_to_mp3_inf c fs f =
      (pyReplace f ".wav" ".mp3",
       fun q => if q = pyReplace f ".wav" ".mp3" then bytes else fs q) := by
  unfold msc_to_mp3_inf
  rw [ha]
  dsimp only
  rw [hb]

/-- C9: `msc_to_mp3_inf` exports at the fixed bitrate `"192k"` and returns
the derived MP3 path (with the encoded bytes written there); on a failure of
loading or of encoding it returns the original input path with the file
system untouched, raising nothing. -/
theorem claim_C9_mp3_conversion (c : AudioCodec) (fs : String → Bytes)
    (wav_file : String) :
    (∀ e, c.fromWav (fs wav_file) = .error e →
      msc_to_mp3_inf c fs wav_file = (wav_file, fs)) ∧
    (∀ a e, c.fromWav (fs wav_file) = .ok a →
      c.exportMp3 a mp3Bitrate = .error e →
      msc_to_mp3_inf c fs wav_file = (wav_file, fs)) ∧
    (∀ a bytes, c.fromWav (fs wav_file) = .ok a →
      c.exportMp3 a mp3Bitrate = .ok bytes →
      msc_to_mp3_inf c fs wav_file =
        (pyReplace wav_file ".wav" ".mp3",
         fun q => if q = pyReplace wav_file ".wav" ".mp3" then bytes else fs q)) := by
  refine ⟨fun e he => ?_, fun a e ha he => ?_, fun a bytes ha hb => msc_ok_eq c fs wav_file a bytes ha hb⟩
  · unfold msc_to_mp3_inf
    rw [he]
  · unfold msc_to_mp3_inf
    rw [ha]
    dsimp only
    rw [he]

/-- A codec that decodes every file to a fixed one-sample clip and encodes
every clip to the bytes `[4, 2]`. -/
def okCodec : AudioCodec :=
  ⟨fun _ => .ok ⟨[5], 1000⟩, fun _ => .ok [9], fun _ _ => .ok [4, 2]⟩

theorem replaceAll_song :
    replaceAll ".wav".data ".mp3".data "song.wav".data = "song.mp3".data := by
  simp +decide [replaceAll]

theorem pyReplace_song : pyReplace "song.wav" ".wav" ".mp3" = "song.mp3" := by
  unfold pyReplace
  rw [replaceAll_song]

theorem claim_C9_mp3_conversion_witness :
    msc_to_mp3_inf okCodec fsExample "song.wav" =
      ("song.mp3", fun q => if q = "song.mp3" then [4, 2] else fsExample q) := by
  have h := (claim_C9_mp3_conversion okCodec fsExample "song.wav").2.2
    ⟨[5], 1000⟩ [4, 2] rfl rfl
  rw [pyReplace_song] at h
  exact h

theorem replaceAll_double :
    replaceAll ".wav".data ".mp3".data "x.wav.wav".data = "x.mp3.mp3".data := by
  simp +decide [replaceAll]

/-- C10: the MP3 path is derived by replacing every occurrence of `".wav"`
with `".mp3"` (shown on a path with two occurrences); when the input path
contains no `".wav"` the derived path equals the input path, so on success
the MP3 bytes are written over the original file's path, which is also the
returned path. -/
theorem claim_C10_replace_no_wav (c : AudioCodec) (fs : String → Bytes)
    (f : String) (hno : ¬ (".wav".data <:+: f.data)) :
    pyReplace f ".wav" ".mp3" = f ∧
    pyReplace "x.wav.wav" ".wav" ".mp3" = "x.mp3.mp3" ∧
    (∀ a bytes, c.fromWav (fs f) = .ok a →
      c.exportMp3 a mp3Bitrate = .ok bytes →
      (msc_to_mp3_inf c fs f).1 = f ∧ (msc_to_mp3_inf c fs f).2 f = bytes) := by
  have hid : pyReplace f ".wav" ".mp3" = f := by
    unfold pyReplace
    rw [replaceAll_no_occurrence _ _ _ hno]
  refine ⟨hid, ?_, fun a bytes ha hb => ?_⟩
  · unfold pyReplace
    rw [replaceAll_double]
  · rw [msc_ok_eq c fs f a bytes ha hb, hid]
    exact ⟨rfl, by simp⟩

theorem claim_C10_replace_no_wav_witness :
    pyReplace "track.ogg" ".wav" ".mp3" = "track.ogg" ∧
    (msc_to_mp3_inf okCodec fsExample "track.ogg").2 "track.ogg" = [4, 2] := by
  have h := claim_C10_replace_no_wav okCodec fsExample "track.ogg" (by decide)
  exact ⟨h.1, (h.2.2 ⟨[5], 1000⟩ [4, 2] rfl rfl).2⟩

theorem gainChangeInt_eq_neg40 {dry : ℚ} (h : dry ≤ 1/100) :
    gainChangeInt dry = -40 := by
  have h40 : Nat.findGreatest (fun k => (10 : ℚ) ^ k * ((1 : ℚ)/100) ^ 20 ≤ 1) 40 = 40 := by
    rw [Nat.findGreatest_eq_iff]
    exact ⟨le_refl 40, fun _ => by norm_num, fun n h1 h2 => absurd (h1.trans_le h2) (lt_irrefl 40)⟩
  simp only [gainChangeInt, max_eq_right h, h40]
  norm_num

theorem dbFactor_pos40 : dbFactor 40 = 100 := by
  unfold dbFactor
  rw [if_pos (by decide : (20 : ℤ) ∣ 40)]
  norm_num

theorem dbFactor_neg40 : dbFactor (-40) = 1/100 := by
  unfold dbFactor
  rw [if_pos (by decide : (20 : ℤ) ∣ -40)]
  norm_num

/-- C3, amended: the gain step is a no-op when `dry_level ≥ 1`; when
`dry_level < 1` it applies a gain change of exactly
`-int(20 × log10(max(dry_level, 0.01)))` decibels — a non-negative number,
i.e. a boost, because the code subtracts the truncated negative decibel value
instead of adding it; in particular for every `dry_level ≤ 0.01` the applied
change is exactly `+40` dB. -/
theorem claim_C3_gain_stage (dry : ℚ) (a : AudioSegment) :
    (1 ≤ dry → gainStage dry a = a) ∧
    (dry < 1 → gainStage dry a = applyGainDb (-(gainChangeInt dry)) a) ∧
    (dry ≤ 1/100 → gainStage dry a = applyGainDb 40 a) := by
  refine ⟨fun h => ?_, fun h => ?_, fun h => ?_⟩
  · unfold gainStage
    rw [if_neg (not_lt.mpr h)]
  · unfold gainStage
    rw [if_pos h]
  · have hlt : dry < 1 := lt_of_le_of_lt h (by norm_num)
    unfold gainStage
    rw [if_pos hlt, gainChangeInt_eq_neg40 h, neg_neg]

theorem claim_C3_gain_stage_witness :
    gainStage (1/200) ⟨[100], 1000⟩ = applyGainDb 40 ⟨[100], 1000⟩ :=
  (claim_C3_gain_stage (1/200) ⟨[100], 1000⟩).2.2 (by norm_num)

/-- C3, counterexample: at `dry_level = 1/100` the claim demands a gain
change of exactly `20 × log10(0.01) = -40` dB (an attenuation); the code
instead applies `+40` dB (a boost): on the one-sample clip `[100]` the stage
produces `[10000]`, while a `-40` dB change produces `[1]`. -/
theorem claim_C3_gain_counterexample :
    (gainStage (1/100) ⟨[100], 1000⟩).samples = [10000] ∧
    (applyGainDb (-40) ⟨[100], 1000⟩).samples = [1] ∧
    gainStage (1/100) ⟨[100], 1000⟩ ≠ applyGainDb (-40) ⟨[100], 1000⟩ := by
  have h1 : (gainStage (1/100) ⟨[100], 1000⟩).samples = [10000] := by
    unfold gainStage
    rw [if_pos (by norm_num), gainChangeInt_eq_neg40 (le_refl _), neg_neg]
    norm_num [applyGainDb, dbFactor_pos40, clampSample, sampleMin, sampleMax]
  have h2 : (applyGainDb (-40) ⟨[100], 1000⟩).samples = [1] := by
    norm_num [applyGainDb, dbFactor_neg40, clampSample, sampleMin, sampleMax]
  refine ⟨h1, h2, fun heq => ?_⟩
  have hs := congrArg AudioSegment.samples heq
  rw [h1, h2] at hs
  exact absurd hs (by decide)

/-- Modelled from the spec's words for claim C2: one loop iteration in which
the tap signal is built from the CURRENT ACCUMULATED clip (`audio` itself)
rather than from the clip captured before the loop, so that taps compound
sequentially. -/
def compoundTapStep (p : EffectParams) (i : ℕ) (audio : AudioSegment) : AudioSegment :=
  let decay := p.room_size * (1 - p.damping) ^ (i + 1)
  if decay > 1/100 then
    let delayed := tapDelayed p.delay i audio
    if lenMs delayed > lenMs audio then overlay audio (takeMs delayed (lenMs audio))
    else overlay audio delayed
  else audio

/-- Modelled from the spec's words for claim C2: the reverb stage as the
claim describes it, with compounding taps. -/
def reverbStageCompound (p : EffectParams) (audio : AudioSegment) : AudioSegment :=
  if p.wet_level > 0 ∧ p.delay > 0 then
    List.foldl (fun acc i => compoundTapStep p i acc) audio [0, 1, 2]
  else audio

/-- The tap overlaid at index `i`, computed from the pristine pre-reverb clip
`a` alone: `none` when the decay threshold excludes it, otherwise the delayed
attenuated copy of `a`, truncated to `a`'s duration when longer. -/
def pristineTap (p : EffectParams) (a : AudioSegment) (i : ℕ) : Option AudioSegment :=
  if p.room_size * (1 - p.damping) ^ (i + 1) > 1/100 then
    let delayed := tapDelayed p.delay i a
    some (if lenMs delayed > lenMs a then takeMs delayed (lenMs a) else delayed)
  else none

/-- The reverb stage reformulated with the three tap signals computed up
front from the pristine pre-reverb clip, then overlaid in order onto the
accumulated clip. -/
def reverbNoncompound (p : EffectParams) (a : AudioSegment) : AudioSegment :=
  if p.wet_level > 0 ∧ p.delay > 0 then
    List.foldl (fun acc t => t.elim acc (fun tp => overlay acc tp)) a
      ([0, 1, 2].map (pristineTap p a))
  else a

theorem tapStep_eq_pristine (p : EffectParams) (a acc : AudioSegment) (i : ℕ)
    (hlen : lenMs acc = lenMs a) :
    tapStep p a i acc = (pristineTap p a i).elim acc (fun tp => overlay acc tp) := by
  by_cases hd : p.room_size * (1 - p.damping) ^ (i + 1) > 1/100
  · simp only [tapStep, pristineTap, if_pos hd, hlen, Option.elim]
    by_cases hl : lenMs (tapDelayed p.delay i a) > lenMs a
    · rw [if_pos hl, if_pos hl]
    · rw [if_neg hl, if_neg hl]
  · simp only [tapStep, pristineTap, if_neg hd, Option.elim]

/-- C2, amended: each included tap `i` is constructed by prepending
`delay × (i+1)` milliseconds of silence to a copy of the PRISTINE pre-reverb
signal (captured once before the loop, not the accumulated result of the
previous taps), attenuating that whole prepended signal by exactly
`20 × (i+1)` decibels, and overlaying it onto the accumulated signal at
position 0; taps do not compound: tap `i+1`'s copy does not contain tap `i`'s
contribution. -/
theorem claim_C2_taps_pristine (p : EffectParams) (a : AudioSegment) :
    reverbStage p a = reverbNoncompound p a := by
  unfold reverbStage reverbNoncompound
  by_cases hg : p.wet_level > 0 ∧ p.delay > 0
  · rw [if_pos hg, if_pos hg]
    simp only [List.map_cons, List.map_nil, List.foldl_cons, List.foldl_nil]
    have hl0 : lenMs (tapStep p a 0 a) = lenMs a := tapStep_lenMs p a 0 a
    have hl1 : lenMs (tapStep p a 1 (tapStep p a 0 a)) = lenMs a := by
      rw [tapStep_lenMs, hl0]
    rw [tapStep_eq_pristine p a (tapStep p a 1 (tapStep p a 0 a)) 2 hl1,
        tapStep_eq_pristine p a (tapStep p a 0 a) 1 hl0,
        tapStep_eq_pristine p a a 0 rfl]
  · rw [if_neg hg, if_neg hg]

theorem dbFactor_neg20 : dbFactor (-20) = 1/10 := by
  unfold dbFactor
  rw [if_pos (by decide : (20 : ℤ) ∣ -20)]
  norm_num

theorem dbFactor_neg60 : dbFactor (-60) = 1/1000 := by
  unfold dbFactor
  rw [if_pos (by decide : (20 : ℤ) ∣ -60)]
  norm_num

/-- Counterexample parameters: all three taps pass the decay threshold
(`room_size = 1`, `damping = 0`), one millisecond of delay per tap. -/
def cexParams : EffectParams := ⟨1, 0, 1, 1, 1, 0⟩

/-- Counterexample clip: a single impulse at a frame rate at which one
millisecond is one sample. -/
def cexClip : AudioSegment := ⟨[10000, 0, 0, 0], 1000⟩

set_option maxRecDepth 100000 in
/-- C2, counterexample: on the impulse clip the code's reverb stage (taps
built from the pristine pre-reverb signal) produces `[10000, 1000, 100, 10]`,
while the claimed compounding reverb produces `[10000, 1000, 100, 20]` — at
index 3 the claimed tap 2 contains tap 1's contribution, the code's does
not. -/
theorem claim_C2_taps_counterexample :
    (reverbStage cexParams cexClip).samples = [10000, 1000, 100, 10] ∧
    (reverbStageCompound cexParams cexClip).samples = [10000, 1000, 100, 20] ∧
    reverbStage cexParams cexClip ≠ reverbStageCompound cexParams cexClip := by
  have h1 : (reverbStage cexParams cexClip).samples = [10000, 1000, 100, 10] := by
    norm_num [reverbStage, tapStep, tapDelayed, silentMs, appendSeg, applyGainDb,
      dbFactor_neg20, dbFactor_neg40, dbFactor_neg60, overlay, zipAdd, lenMs, takeMs,
      clampSample, sampleMin, sampleMax, List.foldl_cons, List.foldl_nil,
      cexParams, cexClip, List.replicate]
  have h2 : (reverbStageCompound cexParams cexClip).samples = [10000, 1000, 100, 20] := by
    norm_num [reverbStageCompound, compoundTapStep, tapDelayed, silentMs, appendSeg,
      applyGainDb, dbFactor_neg20, dbFactor_neg40, dbFactor_neg60, overlay, zipAdd,
      lenMs, takeMs, clampSample, sampleMin, sampleMax, List.foldl_cons, List.foldl_nil,
      cexParams, cexClip, List.replicate]
  refine ⟨h1, h2, fun heq => ?_⟩
  have hs := congrArg AudioSegment.samples heq
  rw [h1, h2] at hs
  exact absurd hs (by decide)

theorem le_foldl_maxAbs (l : List ℤ) :
    ∀ b : ℕ, b ≤ l.foldl (fun m s => max m s.natAbs) b := by
  induction l with
  | nil => intro b; exact le_refl b
  | cons x xs ih =>
    intro b
    exact le_trans (le_max_left b x.natAbs) (ih (max b x.natAbs))

theorem natAbs_le_foldl_maxAbs (l : List ℤ) :
    ∀ (b : ℕ) (s : ℤ), s ∈ l → s.natAbs ≤ l.foldl (fun m s => max m s.natAbs) b := by
  induction l with
  | nil => intro b s hs; cases hs
  | cons x xs ih =>
    intro b s hs
    cases hs with
    | head => exact le_trans (le_max_right b x.natAbs) (le_foldl_maxAbs xs (max b x.natAbs))
    | tail _ hmem => exact ih (max b x.natAbs) s hmem

theorem natAbs_le_maxAbsSample (l : List ℤ) (s : ℤ) (hs : s ∈ l) :
    s.natAbs ≤ maxAbsSample l :=
  natAbs_le_foldl_maxAbs l 0 s hs

theorem clampSample_bounds (x : ℤ) :
    sampleMin ≤ clampSample x ∧ clampSample x ≤ sampleMax := by
  unfold clampSample sampleMin sampleMax
  split
  · constructor <;> norm_num
  · split
    · constructor <;> norm_num
    · omega

theorem normalize_bounds (a : AudioSegment) :
    ∀ s ∈ (normalize a).samples, sampleMin ≤ s ∧ s ≤ sampleMax := by
  intro s hs
  simp only [normalize] at hs
  by_cases hp : maxAbsSample a.samples = 0
  · rw [if_pos hp] at hs
    have h0 : s.natAbs ≤ 0 := hp ▸ natAbs_le_maxAbsSample a.samples s hs
    have hz : s = 0 := Int.natAbs_eq_zero.mp (Nat.le_zero.mp h0)
    rw [hz]
    constructor <;> norm_num [sampleMin, sampleMax]
  · rw [if_neg hp] at hs
    simp only [List.mem_map] at hs
    obtain ⟨t, -, rfl⟩ := hs
    exact clampSample_bounds _

/-- C8: on every successful run the tone-shaping step unconditionally (for
all parameter values) applies the low-pass filter with the fixed 8000 Hz
cutoff and then the peak normalization, in that order, and after
normalization no sample leaves the representable 16-bit range. -/
theorem claim_C8_tone_shaping (p : EffectParams) (a : AudioSegment) :
    applyEffects p a =
      normalize (lowPassFilter 8000
        (gainStage p.dry_level (reverbStage p (timeStretch p.slow_factor a)))) ∧
    ∀ s ∈ (applyEffects p a).samples, sampleMin ≤ s ∧ s ≤ sampleMax := by
  refine ⟨rfl, ?_⟩
  intro s hs
  exact normalize_bounds _ s hs

theorem claim_C8_tone_shaping_witness :
    (applyEffects ⟨3/4, 1/2, 0, 1, 2, 0⟩ ⟨[100, 0], 1000⟩).samples = [32767, 327] ∧
    sampleMin ≤ (32767 : ℤ) ∧ (32767 : ℤ) ≤ sampleMax := by
  have hlp : lowPassFilter 8000 ⟨[100, 0], 1000⟩ = ⟨[100, 1], 1000⟩ := by
    norm_num [lowPassFilter, lowPassGo, lpAlpha, piApprox, ratTrunc]
  have hpeak : maxAbsSample [100, 1] = 100 := by decide
  have hnm : normalize ⟨[100, 1], 1000⟩ = ⟨[32767, 327], 1000⟩ := by
    simp only [normalize]
    rw [hpeak]
    rw [if_neg (by norm_num)]
    norm_num [maxPossibleAmplitude, clampSample, sampleMin, sampleMax]
  have heval : applyEffects ⟨3/4, 1/2, 0, 1, 2, 0⟩ ⟨[100, 0], 1000⟩ = ⟨[32767, 327], 1000⟩ := by
    unfold applyEffects
    dsimp only
    rw [show timeStretch 0 (⟨[100, 0], 1000⟩ : AudioSegment) = ⟨[100, 0], 1000⟩ from by
      unfold timeStretch; rw [if_neg (lt_irrefl 0)]]
    rw [reverbStage_noop_aux _ _ (Or.inl (le_refl 0))]
    rw [show gainStage 1 (⟨[100, 0], 1000⟩ : AudioSegment) = ⟨[100, 0], 1000⟩ from by
      unfold gainStage; rw [if_neg (lt_irrefl 1)]]
    rw [hlp, hnm]
  refine ⟨by rw [heval], ?_⟩
  exact (claim_C8_tone_shaping ⟨3/4, 1/2, 0, 1, 2, 0⟩ ⟨[100, 0], 1000⟩).2 32767
    (by rw [heval]; simp)

end Lofi
